import Mathlib

/-!
Verification of the Data-scrapper repository's specification against its code.

The frontend components (ScraperTab.jsx and the universal ScraperTab variant
embedded in ProcessorTab.jsx) are shallowly embedded below: JavaScript strings
are modelled as lists of characters, request bodies as an inductive datatype
mirroring the JSON object literals the code builds, and the stateful
interval-polling loop as a recursion over the sequence of poll outcomes.

The backend scraping core (request validation, price normalizer, result
aggregator, pagination driver) is not present in the sources; those parts are
modelled from the specification, each such definition carrying a doc comment
beginning with "Modelled from the spec:".
-/

namespace Scraper

/-- JavaScript strings are modelled as lists of characters. -/
abbrev Str := List Char

/-- The whitespace characters recognised by the model of
JavaScript String.prototype.trim (the ASCII subset suffices here). -/
def isJsSpace (c : Char) : Bool :=
  c = ' ' || c = '\t' || c = '\n' || c = '\r' || c = '\x0b' || c = '\x0c'

/-- Model of JavaScript s.trim(): remove leading and trailing whitespace. -/
def jsTrim (s : Str) : Str :=
  ((s.dropWhile isJsSpace).reverse.dropWhile isJsSpace).reverse

/-- Model of JavaScript s.split(newline): split a string at newline
characters; the separators are not kept and empty pieces are kept. -/
def splitLines : Str → List Str
  | [] => [[]]
  | c :: rest =>
    if c = '\n' then [] :: splitLines rest
    else
      match splitLines rest with
      | [] => [[c]]
      | l :: ls => (c :: l) :: ls

/-- The non-blank lines of the textarea input: split the input at newlines
and keep those lines whose trim is non-empty, as in handleScrape
(ScraperTab.jsx line 18, ProcessorTab.jsx line 1050). JS truthiness of a
string is non-emptiness. -/
def nonBlankLines (s : Str) : List Str :=
  (splitLines s).filter (fun u => !(jsTrim u).isEmpty)

/-- The JSON request bodies built by the two handleScrape variants:
product mode posts (urls, max_pages, auto_detect) to /scrape-products,
plain mode posts (urls) to /scrape, and the universal variant posts
(urls, max_pages) to /universal-scrape. -/
inductive RequestBody where
  | product (urls : List Str) (max_pages : Int) (auto_detect : Bool)
  | plain (urls : List Str)
  | universal (urls : List Str) (max_pages : Int)
deriving DecidableEq, Repr

/-- The JSON field names of each request body, in the order the object
literal writes them. -/
def RequestBody.fields : RequestBody → List String
  | .product _ _ _ => ["urls", "max_pages", "auto_detect"]
  | .plain _ => ["urls"]
  | .universal _ _ => ["urls", "max_pages"]

/-- The urls field of a request body. -/
def RequestBody.urls : RequestBody → List Str
  | .product us _ _ => us
  | .plain us => us
  | .universal us _ => us

/-- handleScrape of ScraperTab.jsx (lines 14-41): if the input is blank no
request is issued (modelled as none); otherwise one request is posted, whose
body depends on productMode, with auto_detect hard-coded to false. -/
def handleScrape (productMode : Bool) (maxPages : Int) (input : Str) :
    Option RequestBody :=
  if (jsTrim input).isEmpty then none
  else if productMode then
    some (.product (nonBlankLines input) maxPages false)
  else
    some (.plain (nonBlankLines input))

/-- handleScrape of the universal ScraperTab variant in ProcessorTab.jsx
(lines 1046-1066): same blank-input gate, always posts (urls, max_pages). -/
def universalHandleScrape (maxPages : Int) (input : Str) :
    Option RequestBody :=
  if (jsTrim input).isEmpty then none
  else some (.universal (nonBlankLines input) maxPages)

theorem mem_dropWhile_of_not {p : Char → Bool} {c : Char} :
    ∀ {l : Str}, c ∈ l → p c = false → c ∈ l.dropWhile p := by
  intro l hc hp
  induction l with
  | nil => simp at hc
  | cons a as ih =>
    rw [List.dropWhile_cons]
    by_cases ha : p a
    · simp only [ha, if_true]
      rcases List.mem_cons.mp hc with h | h
      · subst h; rw [ha] at hp; exact absurd hp (by simp)
      · exact ih h
    · simp only [ha, if_false]
      exact hc

theorem jsTrim_ne_nil_of_mem {c : Char} {s : Str} (hc : c ∈ s)
    (hp : isJsSpace c = false) : jsTrim s ≠ [] := by
  unfold jsTrim
  intro h
  have h1 : c ∈ (s.dropWhile isJsSpace) := mem_dropWhile_of_not hc hp
  have h2 : c ∈ (s.dropWhile isJsSpace).reverse := List.mem_reverse.mpr h1
  have h3 : c ∈ (s.dropWhile isJsSpace).reverse.dropWhile isJsSpace :=
    mem_dropWhile_of_not h2 hp
  have h4 : c ∈ ((s.dropWhile isJsSpace).reverse.dropWhile isJsSpace).reverse :=
    List.mem_reverse.mpr h3
  rw [h] at h4
  simp at h4

theorem mem_splitLines_of_mem {c : Char} :
    ∀ {s : Str}, c ∈ s → c ≠ '\n' → ∃ l ∈ splitLines s, c ∈ l := by
  intro s hc hnl
  induction s with
  | nil => simp at hc
  | cons a as ih =>
    rw [splitLines]
    by_cases ha : a = '\n'
    · simp only [ha, if_true]
      rcases List.mem_cons.mp hc with h | h
      · exact absurd (h.trans ha) hnl
      · obtain ⟨l, hl, hcl⟩ := ih h
        exact ⟨l, List.mem_cons_of_mem _ hl, hcl⟩
    · simp only [ha, if_false]
      rcases List.mem_cons.mp hc with h | h
      · subst h
        cases hsp : splitLines as with
        | nil => exact ⟨[c], by simp, by simp⟩
        | cons l ls => exact ⟨c :: l, by simp, by simp⟩
      · obtain ⟨l, hl, hcl⟩ := ih h
        cases hsp : splitLines as with
        | nil => rw [hsp] at hl; simp at hl
        | cons l0 ls =>
          rw [hsp] at hl
          rcases List.mem_cons.mp hl with h0 | h0
          · exact ⟨a :: l0, by simp, by subst h0; exact List.mem_cons_of_mem _ hcl⟩
          · exact ⟨l, List.mem_cons_of_mem _ h0, hcl⟩

theorem jsTrim_eq_nil_iff {s : Str} :
    jsTrim s = [] ↔ ∀ c ∈ s, isJsSpace c = true := by
  constructor
  · intro h c hc
    by_contra hns
    exact jsTrim_ne_nil_of_mem hc (by simpa using hns) h
  · intro h
    unfold jsTrim
    have h1 : s.dropWhile isJsSpace = [] := by
      rw [List.dropWhile_eq_nil_iff]
      intro x hx; exact h x hx
    rw [h1]
    simp

theorem nonBlankLines_ne_nil {s : Str} (h : jsTrim s ≠ []) :
    nonBlankLines s ≠ [] := by
  have hex : ∃ c ∈ s, isJsSpace c = false := by
    by_contra hall
    push_neg at hall
    exact h (jsTrim_eq_nil_iff.mpr (fun c hc => by
      have := hall c hc
      simpa using this))
  obtain ⟨c, hcs, hcw⟩ := hex
  have hnl : c ≠ '\n' := by
    intro he
    rw [he] at hcw
    simp [isJsSpace] at hcw
  obtain ⟨l, hl, hcl⟩ := mem_splitLines_of_mem hcs hnl
  have hlt : jsTrim l ≠ [] := jsTrim_ne_nil_of_mem hcl hcw
  have hmem : l ∈ nonBlankLines s := by
    rw [nonBlankLines, List.mem_filter]
    exact ⟨hl, by simpa [List.isEmpty_iff] using hlt⟩
  intro hnil
  rw [hnil] at hmem
  simp at hmem

/-- Task status values the polling code distinguishes. -/
inductive TaskStatus where
  | pending | running | completed | failed
deriving DecidableEq, Repr

/-- A task as seen by the frontend poller: its id and status. -/
structure Task where
  id : Str
  status : TaskStatus
deriving DecidableEq, Repr

/-- One tick of the polling interval: either the GET request throws, or it
returns a task. -/
inductive PollOutcome where
  | err
  | ok (t : Task)
deriving DecidableEq, Repr

/-- A poll outcome after which the interval is cleared: a thrown request, or
a returned task whose status is completed or failed (ScraperTab.jsx
lines 58-63, ProcessorTab.jsx lines 1083-1088). -/
def stopsPolling : PollOutcome → Bool
  | .err => true
  | .ok t => t.status = .completed || t.status = .failed

/-- The interval period passed to setInterval (ScraperTab.jsx line 64,
ProcessorTab.jsx line 1089). -/
def POLL_INTERVAL_MS : Nat := 2000

/-- The time in milliseconds at which the k-th poll (0-based) fires:
setInterval first fires one period after installation. -/
def pollTimeMs (k : Nat) : Nat := POLL_INTERVAL_MS * (k + 1)

/-- The polls pollTask actually performs, given the sequence of outcomes the
status endpoint would produce at successive ticks: each tick polls once, and
the interval is cleared immediately after the first outcome satisfying
stopsPolling, so no later tick polls. -/
def pollsMade : List PollOutcome → List PollOutcome
  | [] => []
  | o :: rest => o :: (if stopsPolling o then [] else pollsMade rest)

/-- Model of JavaScript Array.prototype.findIndex over the task list, with
none for the -1 "not found" result (ScraperTab.jsx line 49). -/
def findIndexById (taskId : Str) : List Task → Option Nat
  | [] => none
  | t :: ts =>
    if t.id = taskId then some 0
    else (findIndexById taskId ts).map (· + 1)

/-- The task-list update performed inside setTasks on each poll
(ScraperTab.jsx lines 48-56, ProcessorTab.jsx lines 1073-1081): if a task
with the polled id is present, replace it in place; otherwise prepend the
polled task. -/
def updateTasks (taskId : Str) (task : Task) (prev : List Task) :
    List Task :=
  match findIndexById taskId prev with
  | some i => prev.set i task
  | none => task :: prev

theorem pollsMade_eq_take (os : List PollOutcome) :
    pollsMade os = os.take ((os.takeWhile (fun o => !stopsPolling o)).length + 1) := by
  induction os with
  | nil => rfl
  | cons o rest ih =>
    rw [pollsMade, List.takeWhile_cons]
    by_cases h : stopsPolling o
    · simp [h]
    · simp only [h, if_false, Bool.not_false, if_true, List.length_cons,
        List.take_succ_cons, ih]
      simp [h]

theorem pollsMade_all (os : List PollOutcome)
    (h : ∀ o ∈ os, stopsPolling o = false) : pollsMade os = os := by
  induction os with
  | nil => rfl
  | cons o rest ih =>
    rw [pollsMade]
    have ho := h o (by simp)
    rw [ho]
    simp only [if_false, Bool.false_eq_true]
    rw [ih (fun x hx => h x (List.mem_cons_of_mem _ hx))]

theorem findIndexById_none {taskId : Str} :
    ∀ {ts : List Task}, findIndexById taskId ts = none →
      ∀ t ∈ ts, t.id ≠ taskId := by
  intro ts h t ht
  induction ts with
  | nil => simp at ht
  | cons a as ih =>
    rw [findIndexById] at h
    by_cases ha : a.id = taskId
    · simp [ha] at h
    · simp only [ha, if_false] at h
      rcases List.mem_cons.mp ht with he | hm
      · subst he; exact ha
      · exact ih (by cases hfi : findIndexById taskId as <;> simp [hfi] at h ⊢) hm

theorem findIndexById_some {taskId : Str} :
    ∀ {ts : List Task} {i : Nat}, findIndexById taskId ts = some i →
      ∃ hi : i < ts.length, (ts.get ⟨i, hi⟩).id = taskId := by
  intro ts
  induction ts with
  | nil => intro i h; simp [findIndexById] at h
  | cons a as ih =>
    intro i h
    rw [findIndexById] at h
    by_cases ha : a.id = taskId
    · simp only [ha, if_true] at h
      cases h
      exact ⟨by simp, ha⟩
    · simp only [ha, if_false] at h
      cases hfi : findIndexById taskId as with
      | none => rw [hfi] at h; simp at h
      | some j =>
        rw [hfi] at h
        simp at h
        obtain ⟨hj, hgj⟩ := ih hfi
        cases h
        exact ⟨by simpa using Nat.succ_lt_succ hj, hgj⟩

theorem updateTasks_nodup {taskId : Str} {task : Task}
    (hid : task.id = taskId) :
    ∀ {prev : List Task}, (prev.map Task.id).Nodup →
      ((updateTasks taskId task prev).map Task.id).Nodup := by
  intro prev hnd
  induction prev with
  | nil => simp [updateTasks, findIndexById]
  | cons a as ih =>
    rw [updateTasks, findIndexById]
    by_cases ha : a.id = taskId
    · simp only [ha, if_true]
      rw [List.set_cons_zero]
      rw [List.map_cons, List.nodup_cons] at hnd ⊢
      rw [hid, ← ha]
      exact hnd
    · simp only [ha, if_false]
      rw [List.map_cons, List.nodup_cons] at hnd
      obtain ⟨hna, hnas⟩ := hnd
      cases hfi : findIndexById taskId as with
      | none =>
        show (List.map Task.id (task :: a :: as)).Nodup
        have h2 : task.id ∉ (a :: as).map Task.id := by
          rw [hid, List.map_cons]
          intro hmem
          rcases List.mem_cons.mp hmem with he | hm
          · exact ha he.symm
          · obtain ⟨t, htm, hte⟩ := List.mem_map.mp hm
            exact findIndexById_none hfi t htm hte
        rw [List.map_cons, List.nodup_cons]
        exact ⟨h2, by rw [List.map_cons, List.nodup_cons]; exact ⟨hna, hnas⟩⟩
      | some j =>
        show (List.map Task.id ((a :: as).set (j + 1) task)).Nodup
        rw [List.set_cons_succ, List.map_cons, List.nodup_cons]
        constructor
        · intro hmem
          obtain ⟨t, htm, hte⟩ := List.mem_map.mp hmem
          rcases List.mem_or_eq_of_mem_set htm with hm | he
          · exact hna (List.mem_map.mpr ⟨t, hm, hte⟩)
          · subst he; rw [hid] at hte; exact ha hte.symm
        · have := ih hnas
          rw [updateTasks, hfi] at this
          exact this

/-- JavaScript values a result record's field can hold, as the CSV export
sees them. Numbers are modelled as integers, which covers the cases the
claims are about. -/
inductive JSValue where
  | vnull
  | vundefined
  | vbool (b : Bool)
  | vnum (n : Int)
  | vstr (s : Str)
deriving DecidableEq, Repr

/-- JavaScript truthiness of a value: null, undefined, false, 0 and the
empty string are falsy. -/
def truthy : JSValue → Bool
  | .vnull => false
  | .vundefined => false
  | .vbool b => b
  | .vnum n => n ≠ 0
  | .vstr s => !s.isEmpty

/-- Decimal digits of a natural number, most significant first. -/
def natDigits (n : Nat) : Str :=
  (Nat.toDigits 10 n)

/-- The string JavaScript produces for a value when an array containing it
is joined: numbers and booleans print their canonical form, and null or
undefined print as the empty string (Array.prototype.join semantics). -/
def displayStr : JSValue → Str
  | .vnull => []
  | .vundefined => []
  | .vbool b => if b then ['t','r','u','e'] else ['f','a','l','s','e']
  | .vnum n => if n < 0 then '-' :: natDigits n.natAbs else natDigits n.natAbs
  | .vstr s => s

/-- value.replace of each double quote by two double quotes, then wrapped in
double quotes (ScraperTab.jsx line 83, ProcessorTab.jsx line 1108). -/
def quoteWrap (s : Str) : Str :=
  '"' :: (s.flatMap (fun c => if c = '"' then ['"', '"'] else [c])) ++ ['"']

/-- One CSV cell, as built per header inside downloadResults
(ScraperTab.jsx lines 79-86, ProcessorTab.jsx lines 1104-1111):
the raw value is first coerced by (value or empty-string), so every falsy
value becomes the empty string; a string containing a comma or a double
quote is quote-wrapped with internal quotes doubled; anything else is
emitted through the join's stringification. -/
def csvCell (v : JSValue) : Str :=
  match (if truthy v then v else .vstr []) with
  | .vstr s =>
    if s.contains ',' || s.contains '"' then quoteWrap s else s
  | w => displayStr w

/-- A result record as the export sees it: an ordered list of
field-name/value pairs (JS object key order). -/
abbrev RecordObj := List (Str × JSValue)

/-- row[header]: look a field up by name; a missing field reads as
undefined. -/
def getField (r : RecordObj) (k : Str) : JSValue :=
  match r.find? (fun p => p.1 = k) with
  | some p => p.2
  | none => .vundefined

/-- One CSV data row: the cells for the given headers, joined by commas
(ScraperTab.jsx lines 78-87). -/
def csvRow (headers : List Str) (r : RecordObj) : Str :=
  List.intercalate [','] (headers.map (fun h => csvCell (getField r h)))

/-- The lines of the CSV built by downloadResults for a non-empty result
list: the comma-joined keys of the first record, then one row per record in
result order (ScraperTab.jsx lines 75-88). -/
def csvRowStrings (results : List RecordObj) : List Str :=
  match results with
  | [] => []
  | r0 :: _ =>
    List.intercalate [','] (r0.map Prod.fst) ::
      results.map (csvRow (r0.map Prod.fst))

/-- downloadResults (ScraperTab.jsx lines 67-98, ProcessorTab.jsx
lines 1092-1123): with an empty or missing result list it alerts and builds
no CSV (none); otherwise it builds the newline-join of header line and data
rows. -/
def buildCsv (results : List RecordObj) : Option Str :=
  match results with
  | [] => none
  | r0 :: rest =>
    some (List.intercalate ['\n'] (csvRowStrings (r0 :: rest)))

/-- Modelled from the spec: the backend API layer's request validation
(absent from the sources) bounds requested max_pages to 1-10, clamping
out-of-range values ("requested max_pages (bounded 1-10, clamp
out-of-range)"). -/
def clampMaxPages (n : Int) : Int :=
  max 1 (min 10 n)

/-- A parsed fixed-precision decimal: mantissa and number of decimal
places; it denotes mantissa divided by 10 to the scale. -/
structure Decimal where
  mantissa : Nat
  scale : Nat
deriving DecidableEq, Repr

/-- The rational number a fixed-precision decimal denotes. -/
def Decimal.toRat (d : Decimal) : ℚ :=
  (d.mantissa : ℚ) / 10 ^ d.scale

/-- A final product record: title, price (decimal or null), discount, url,
image, 1-based source page (spec section 3, ProductRecord). -/
structure ProductRecord where
  title : Str
  price : Option Decimal
  discount : Option Str
  url : Option Str
  image : Option Str
  source_page : Nat
deriving DecidableEq, Repr

/-- Whether some record in the accumulated result set already carries the
given non-null product URL. -/
def urlPresent (u : Str) (acc : List ProductRecord) : Bool :=
  acc.any (fun r => r.url = some u)

/-- Modelled from the spec: the Task Result Aggregator (absent from the
sources) appends one record to the task's result sequence, deduplicating by
product URL — a record whose non-null url is already present is dropped. -/
def addRecord (acc : List ProductRecord) (r : ProductRecord) :
    List ProductRecord :=
  match r.url with
  | none => acc ++ [r]
  | some u => if urlPresent u acc then acc else acc ++ [r]

/-- Modelled from the spec: the Aggregator merges a per-page extraction
batch into the result set, record by record in page order. -/
def addPage (acc : List ProductRecord) (page : List ProductRecord) :
    List ProductRecord :=
  page.foldl addRecord acc

/-- The deduplication invariant: no two records of the result set share an
identical non-null url. -/
def DedupInv (acc : List ProductRecord) : Prop :=
  acc.Pairwise (fun a b => ∀ u : Str, a.url = some u → b.url ≠ some u)

/-- A page of a site as the Pagination Driver sees it after rendering and
extraction: the records extracted from it and the target of its next-page
control, if any. -/
structure SitePage where
  records : List ProductRecord
  nextUrl : Option Str

/-- A site: what rendering an URL yields. -/
def Site := Str → SitePage

/-- Reasons the Pagination Driver stops (spec section 3,
PaginationState). -/
inductive StopReason where
  | maxPagesReached
  | noNextLink
  | noNewRecords
deriving DecidableEq, Repr

/-- What a finished crawl returns: the last page number processed, the
accumulated deduplicated records, the visited URL set and the stop
reason. -/
structure CrawlResult where
  pages_done : Nat
  records : List ProductRecord
  visited : List Str
  stopReason : StopReason
deriving Repr

/-- Modelled from the spec: one DECIDING-and-onwards run of the Pagination
Driver (absent from the sources), from the given page number and URL.
Processing a page extracts and aggregates its records (dedup applied), then
DECIDING stops if (a) the page number has reached max_pages, (b) no
next-page control matched or its target URL is already in the visited set
(cycle guard), or (c) the page yielded zero new non-duplicate records;
otherwise the next URL is marked visited, the page number incremented, and
the crawl continues. The visited set holds every URL loaded so far (spec
section 3: "visited URL set (for cycle detection)"), so it starts
containing the seed. -/
def crawlGo (site : Site) :
    Nat → Nat → Str → List Str → List ProductRecord → CrawlResult
  | 0, page, url, visited, records =>
    ⟨page, addPage records (site url).records, visited, .maxPagesReached⟩
  | budget + 1, page, url, visited, records =>
    match (site url).nextUrl with
    | none => ⟨page, addPage records (site url).records, visited, .noNextLink⟩
    | some nxt =>
      if nxt ∈ visited then
        ⟨page, addPage records (site url).records, visited, .noNextLink⟩
      else if (addPage records (site url).records).length = records.length then
        ⟨page, addPage records (site url).records, visited, .noNewRecords⟩
      else
        crawlGo site budget (page + 1) nxt (nxt :: visited)
          (addPage records (site url).records)

/-- Modelled from the spec: a whole crawl of one seed URL — INIT sets
page 1, the visited set containing the seed, no records, then the driver
runs until a stop condition holds. The driver carries the remaining page
budget max_pages - page alongside the page counter, so stop condition (a),
page at least max_pages, is exactly budget exhaustion; the budget strictly
decreases on every continue, which is the termination argument. -/
def crawl (site : Site) (maxPages : Nat) (seed : Str) : CrawlResult :=
  crawlGo site (maxPages - 1) 1 seed [seed] []

theorem crawlGo_pages_le (site : Site) :
    ∀ budget page url visited records,
      (crawlGo site budget page url visited records).pages_done
        ≤ page + budget := by
  intro budget
  induction budget with
  | zero =>
    intro page url visited records
    rw [crawlGo]
    simp
  | succ n ih =>
    intro page url visited records
    rw [crawlGo]
    cases hnx : (site url).nextUrl with
    | none => simp
    | some nxt =>
      by_cases hv : nxt ∈ visited
      · simp [hv]
      · simp only [hv, if_false]
        by_cases hm :
            (addPage records (site url).records).length = records.length
        · simp [hm]
        · simp only [hm, if_false]
          calc (crawlGo site n (page + 1) nxt (nxt :: visited)
                  (addPage records (site url).records)).pages_done
              ≤ (page + 1) + n := ih (page + 1) nxt (nxt :: visited) _
            _ = page + (n + 1) := by omega

theorem crawl_pages_le (site : Site) (maxPages : Nat) (seed : Str)
    (h : 1 ≤ maxPages) : (crawl site maxPages seed).pages_done ≤ maxPages := by
  have := crawlGo_pages_le site (maxPages - 1) 1 seed [seed] []
  rw [crawl]
  omega

/-- A thousands or decimal separator character. -/
def isSepChar (c : Char) : Bool :=
  c = ',' || c = '.'

/-- Modelled from the spec: the first substring of a raw price string
matching a currency/number pattern — digits with optional interspersed
separators — found by skipping to the first digit, taking digits and
separators, and discarding trailing separators. -/
def firstNumericRun (s : Str) : Str :=
  (((s.dropWhile (fun c => !c.isDigit)).takeWhile
      (fun c => c.isDigit || isSepChar c)).reverse.dropWhile isSepChar).reverse

/-- The natural number denoted by a string of decimal digits. -/
def digitsVal (ds : Str) : Nat :=
  ds.foldl (fun a c => 10 * a + (c.toNat - 48)) 0

/-- Modelled from the spec: the Normalization Layer's price normalizer
(absent from the sources). The first numeric substring is found; if there
is none the price is null. Otherwise the last separator before exactly 1-2
trailing digits is treated as the decimal point and every other separator
as thousands grouping; with no separator, or trailing digits not of length
1-2, all separators are grouping and the value is the integer of all
digits. -/
def normalizePrice (s : Str) : Option Decimal :=
  if (firstNumericRun s).isEmpty then none
  else
    if ((firstNumericRun s).reverse.takeWhile Char.isDigit).length
        = (firstNumericRun s).length then
      some ⟨digitsVal (firstNumericRun s), 0⟩
    else if ((firstNumericRun s).reverse.takeWhile Char.isDigit).length = 1
        ∨ ((firstNumericRun s).reverse.takeWhile Char.isDigit).length = 2 then
      some ⟨digitsVal (((firstNumericRun s).take ((firstNumericRun s).length
              - ((firstNumericRun s).reverse.takeWhile Char.isDigit).length
              - 1)).filter Char.isDigit)
            * 10 ^ ((firstNumericRun s).reverse.takeWhile Char.isDigit).length
          + digitsVal ((firstNumericRun s).reverse.takeWhile Char.isDigit).reverse,
        ((firstNumericRun s).reverse.takeWhile Char.isDigit).length⟩
    else
      some ⟨digitsVal ((firstNumericRun s).filter Char.isDigit), 0⟩

theorem firstNumericRun_eq_nil {s : Str}
    (h : ∀ c ∈ s, c.isDigit = false) : firstNumericRun s = [] := by
  unfold firstNumericRun
  have h1 : s.dropWhile (fun c => !c.isDigit) = [] := by
    rw [List.dropWhile_eq_nil_iff]
    intro x hx
    simp [h x hx]
  rw [h1]
  simp

theorem normalizePrice_none_of_no_digit {s : Str}
    (h : ∀ c ∈ s, c.isDigit = false) : normalizePrice s = none := by
  rw [normalizePrice, firstNumericRun_eq_nil h]
  simp

theorem urlPresent_false_forall {u : Str} {acc : List ProductRecord}
    (h : urlPresent u acc = false) : ∀ a ∈ acc, a.url ≠ some u := by
  intro a ha
  rw [urlPresent, List.any_eq_false] at h
  have := h a ha
  simpa using this

theorem addRecord_dedup {acc : List ProductRecord} {r : ProductRecord}
    (h : DedupInv acc) : DedupInv (addRecord acc r) := by
  rw [addRecord]
  cases hu : r.url with
  | none =>
    rw [DedupInv, List.pairwise_append]
    refine ⟨h, by simp, ?_⟩
    intro a _ b hb u _ hbu
    rw [List.mem_singleton] at hb
    subst hb
    rw [hu] at hbu
    exact Option.noConfusion hbu
  | some u =>
    by_cases hp : urlPresent u acc
    · simpa [hp] using h
    · simp only [hp, Bool.false_eq_true, if_false]
      rw [DedupInv, List.pairwise_append]
      refine ⟨h, by simp, ?_⟩
      intro a ha b hb v hav hbv
      rw [List.mem_singleton] at hb
      subst hb
      rw [hu] at hbv
      cases hbv
      exact urlPresent_false_forall (by simpa using hp) a ha hav

theorem addPage_dedup :
    ∀ (page : List ProductRecord) (acc : List ProductRecord),
      DedupInv acc → DedupInv (addPage acc page) := by
  intro page
  induction page with
  | nil => intro acc h; exact h
  | cons r rest ih =>
    intro acc h
    rw [addPage, List.foldl_cons]
    exact ih (addRecord acc r) (addRecord_dedup h)

theorem urlPresent_addRecord_mono {u : Str} {acc : List ProductRecord}
    (r : ProductRecord) (h : urlPresent u acc = true) :
    urlPresent u (addRecord acc r) = true := by
  rw [addRecord]
  cases r.url with
  | none =>
    rw [urlPresent, List.any_append]
    rw [urlPresent] at h
    simp [h]
  | some v =>
    by_cases hp : urlPresent v acc
    · simp [hp, h]
    · simp only [hp, Bool.false_eq_true, if_false]
      rw [urlPresent, List.any_append]
      rw [urlPresent] at h
      simp [h]

theorem urlPresent_addRecord_self {u : Str} {acc : List ProductRecord}
    {r : ProductRecord} (hu : r.url = some u) :
    urlPresent u (addRecord acc r) = true := by
  rw [addRecord, hu]
  by_cases hp : urlPresent u acc
  · simp [hp]
  · simp only [hp, Bool.false_eq_true, if_false]
    rw [urlPresent, List.any_append]
    simp [hu]

theorem urlPresent_addPage_mono {u : Str} :
    ∀ (page : List ProductRecord) {acc : List ProductRecord},
      urlPresent u acc = true → urlPresent u (addPage acc page) = true := by
  intro page
  induction page with
  | nil => intro acc h; exact h
  | cons r rest ih =>
    intro acc h
    rw [addPage, List.foldl_cons]
    exact ih (urlPresent_addRecord_mono r h)

theorem urlPresent_addPage_of_mem {u : Str} :
    ∀ (page : List ProductRecord) {acc : List ProductRecord}
      {r : ProductRecord}, r ∈ page → r.url = some u →
      urlPresent u (addPage acc page) = true := by
  intro page
  induction page with
  | nil => intro acc r h; simp at h
  | cons a rest ih =>
    intro acc r hmem hu
    rw [addPage, List.foldl_cons]
    rcases List.mem_cons.mp hmem with he | hm
    · subst he
      exact urlPresent_addPage_mono rest (urlPresent_addRecord_self hu)
    · exact ih hm hu

theorem addPage_eq_of_all_present :
    ∀ (page : List ProductRecord) {acc : List ProductRecord},
      (∀ r ∈ page, ∃ u : Str, r.url = some u ∧ urlPresent u acc = true) →
      addPage acc page = acc := by
  intro page
  induction page with
  | nil => intro acc _; rfl
  | cons r rest ih =>
    intro acc h
    obtain ⟨u, hu, hp⟩ := h r (by simp)
    have hadd : addRecord acc r = acc := by
      rw [addRecord, hu]
      simp [hp]
    rw [addPage, List.foldl_cons, hadd]
    exact ih (fun x hx => h x (List.mem_cons_of_mem _ hx))

theorem addPage_twice {acc : List ProductRecord}
    {page : List ProductRecord} (h : ∀ r ∈ page, r.url.isSome) :
    addPage (addPage acc page) page = addPage acc page := by
  apply addPage_eq_of_all_present
  intro r hr
  obtain ⟨u, hu⟩ := Option.isSome_iff_exists.mp (h r hr)
  exact ⟨u, hu, urlPresent_addPage_of_mem page hr hu⟩

/-- A product record of the synthetic test site, with a distinct url per
page number. -/
def synthRecord (n : Nat) : ProductRecord :=
  ⟨natDigits n, none, none, some (natDigits n), none, n⟩

/-- The synthetic site of the spec's termination property: three pages,
each with one product, whose next-page link cycles back from page 3 to
page 1. -/
def synthSite : Site := fun u =>
  if u = ['p', '1'] then ⟨[synthRecord 1], some ['p', '2']⟩
  else if u = ['p', '2'] then ⟨[synthRecord 2], some ['p', '3']⟩
  else if u = ['p', '3'] then ⟨[synthRecord 3], some ['p', '1']⟩
  else ⟨[], none⟩

theorem csvCell_quoted {s : Str}
    (h : s.contains ',' = true ∨ s.contains '"' = true) :
    csvCell (.vstr s) = quoteWrap s := by
  have hne : s ≠ [] := by
    intro he
    subst he
    simp [List.contains] at h
  rw [csvCell]
  have ht : truthy (JSValue.vstr s) = true := by
    simp [truthy, List.isEmpty_iff, hne]
  rw [ht]
  simp only [if_true]
  have hc : (s.contains ',' || s.contains '"') = true := by
    simp only [Bool.or_eq_true]
    rcases h with h | h
    · exact Or.inl h
    · exact Or.inr h
  rw [hc]
  simp

theorem csvCell_plain {s : Str} (h1 : s.contains ',' = false)
    (h2 : s.contains '"' = false) : csvCell (.vstr s) = s := by
  rw [csvCell]
  by_cases hne : s = []
  · subst hne; simp [truthy]
  · have ht : truthy (JSValue.vstr s) = true := by
      simp [truthy, List.isEmpty_iff, hne]
    rw [ht]
    simp only [if_true]
    rw [h1, h2]
    simp

theorem csvCell_falsy {v : JSValue} (h : truthy v = false) :
    csvCell v = [] := by
  rw [csvCell, h]
  rfl

theorem csvCell_truthy_nonstr {v : JSValue} (h : truthy v = true)
    (hs : ∀ t : Str, v ≠ .vstr t) : csvCell v = displayStr v := by
  cases v with
  | vstr t => exact absurd rfl (hs t)
  | vnull => simp [truthy] at h
  | vundefined => simp [truthy] at h
  | vbool b => rw [csvCell, h]; rfl
  | vnum n => rw [csvCell, h]; rfl

/-- C1: every scrape request's max_pages is clamped into [1,10] before a
crawl uses it; the clamp is the identity on in-range values, and a request
submitted with max_pages 15 drives exactly the same crawl as one submitted
with max_pages 10. -/
theorem claim1_max_pages_clamped (n : Int) :
    1 ≤ clampMaxPages n ∧ clampMaxPages n ≤ 10 ∧
    (1 ≤ n → n ≤ 10 → clampMaxPages n = n) ∧
    clampMaxPages 15 = clampMaxPages 10 ∧
    (∀ (site : Site) (seed : Str),
      crawl site (clampMaxPages 15).toNat seed
        = crawl site (clampMaxPages 10).toNat seed) := by
  refine ⟨?_, ?_, ?_, by decide, ?_⟩
  · rw [clampMaxPages]; omega
  · rw [clampMaxPages]; omega
  · intro h1 h2; rw [clampMaxPages]; omega
  · intro site seed
    rw [show clampMaxPages 15 = clampMaxPages 10 from by decide]

theorem claim1_witness :
    1 ≤ clampMaxPages 7 ∧ clampMaxPages 7 ≤ 10 ∧ clampMaxPages 7 = 7 ∧
      clampMaxPages 15 = clampMaxPages 10 :=
  ⟨(claim1_max_pages_clamped 7).1, (claim1_max_pages_clamped 7).2.1,
    (claim1_max_pages_clamped 7).2.2.1 (by decide) (by decide),
    (claim1_max_pages_clamped 7).2.2.2.1⟩

/-- C2: the aggregator preserves the deduplication invariant — no two
records of a result set share an identical non-null url — across every
merged page, and merging the same page a second time (as a cyclic
next-link would) adds no record when every record of the page carries a
url. -/
theorem claim2_dedup_invariant (acc page : List ProductRecord) :
    (DedupInv acc → DedupInv (addPage acc page)) ∧
    ((∀ r ∈ page, r.url.isSome) →
      addPage (addPage acc page) page = addPage acc page) :=
  ⟨addPage_dedup page acc, fun h => addPage_twice h⟩

theorem claim2_witness :
    DedupInv (addPage [] [⟨[], none, none, some ['u'], none, 1⟩]) ∧
    addPage (addPage [] [⟨[], none, none, some ['u'], none, 1⟩])
        [⟨[], none, none, some ['u'], none, 1⟩]
      = addPage [] [⟨[], none, none, some ['u'], none, 1⟩] :=
  ⟨(claim2_dedup_invariant [] [⟨[], none, none, some ['u'], none, 1⟩]).1
      (by simp [DedupInv]),
    (claim2_dedup_invariant [] [⟨[], none, none, some ['u'], none, 1⟩]).2
      (by decide)⟩

/-- C3: every pagination crawl terminates with at most max_pages pages
processed (the driver is a total function whose page budget strictly
decreases), and on the synthetic 3-page site whose next-link cycles back
to page 1 the driver stops at page 3 by the cycle guard, with all three
records collected. -/
theorem claim3_pagination_terminates (site : Site) (maxPages : Nat)
    (seed : Str) :
    (1 ≤ maxPages → (crawl site maxPages seed).pages_done ≤ maxPages) ∧
    (crawl synthSite 10 ['p', '1']).pages_done = 3 ∧
    (crawl synthSite 10 ['p', '1']).stopReason = .noNextLink ∧
    (crawl synthSite 10 ['p', '1']).records.length = 3 :=
  ⟨fun h => crawl_pages_le site maxPages seed h, by decide, by decide,
    by decide⟩

theorem claim3_witness :
    (crawl synthSite 10 ['p', '1']).pages_done ≤ 10 ∧
    (crawl synthSite 10 ['p', '1']).pages_done = 3 :=
  ⟨(claim3_pagination_terminates synthSite 10 ['p', '1']).1 (by decide),
    (claim3_pagination_terminates synthSite 10 ['p', '1']).2.1⟩

/-- C4: the price normalizer sends the dollar-grouped string to the
decimal 1299.50, the alternate-grouping string to the same decimal, and a
string with no digit — such as Free — to null. -/
theorem claim4_price_normalization (s : Str) :
    normalizePrice "$1,299.50".toList = some ⟨129950, 2⟩ ∧
    normalizePrice "1.299,50".toList = some ⟨129950, 2⟩ ∧
    Decimal.toRat ⟨129950, 2⟩ = 2599 / 2 ∧
    normalizePrice "Free".toList = none ∧
    ((∀ c ∈ s, c.isDigit = false) → normalizePrice s = none) :=
  ⟨by decide, by decide, by rw [Decimal.toRat]; norm_num, by decide,
    fun h => normalizePrice_none_of_no_digit h⟩

theorem claim4_witness :
    normalizePrice "$1,299.50".toList = some ⟨129950, 2⟩ ∧
    normalizePrice "Free".toList = none :=
  ⟨(claim4_price_normalization "Free".toList).1,
    (claim4_price_normalization "Free".toList).2.2.2.2 (by decide)⟩

/-- C5: a blank URL input issues no request at all — in both handleScrape
variants — and every request issued carries exactly the non-blank lines of
the input as its urls list, which is then non-empty. -/
theorem claim5_empty_url_rejected (productMode : Bool) (maxPages : Int)
    (input : Str) :
    (handleScrape productMode maxPages input = none ↔ jsTrim input = []) ∧
    (universalHandleScrape maxPages input = none ↔ jsTrim input = []) ∧
    (∀ body, handleScrape productMode maxPages input = some body →
      body.urls = nonBlankLines input ∧ body.urls ≠ []) ∧
    (∀ body, universalHandleScrape maxPages input = some body →
      body.urls = nonBlankLines input ∧ body.urls ≠ []) := by
  by_cases h : (jsTrim input).isEmpty
  · have he : jsTrim input = [] := by simpa [List.isEmpty_iff] using h
    refine ⟨?_, ?_, ?_, ?_⟩
    · rw [handleScrape, if_pos h]; simp [he]
    · rw [universalHandleScrape, if_pos h]; simp [he]
    · intro body hb; rw [handleScrape, if_pos h] at hb; exact absurd hb (by simp)
    · intro body hb
      rw [universalHandleScrape, if_pos h] at hb
      exact absurd hb (by simp)
  · have hne : jsTrim input ≠ [] := by simpa [List.isEmpty_iff] using h
    have hub : nonBlankLines input ≠ [] := nonBlankLines_ne_nil hne
    refine ⟨?_, ?_, ?_, ?_⟩
    · rw [handleScrape, if_neg h]
      cases productMode <;> simp [hne]
    · rw [universalHandleScrape, if_neg h]; simp [hne]
    · intro body hb
      rw [handleScrape, if_neg h] at hb
      cases productMode <;> simp at hb <;> subst hb <;>
        exact ⟨rfl, by simpa [RequestBody.urls] using hub⟩
    · intro body hb
      rw [universalHandleScrape, if_neg h] at hb
      simp at hb
      subst hb
      exact ⟨rfl, by simpa [RequestBody.urls] using hub⟩

theorem claim5_witness :
    (handleScrape true 3 "\n \n".toList = none ↔ jsTrim "\n \n".toList = []) ∧
    ((handleScrape true 3 ['h', 'i']).getD (.plain [])).urls
        = nonBlankLines ['h', 'i'] ∧
    ((handleScrape true 3 ['h', 'i']).getD (.plain [])).urls ≠ [] :=
  ⟨(claim5_empty_url_rejected true 3 "\n \n".toList).1,
    (claim5_empty_url_rejected true 3 ['h', 'i']).2.2.1
      ((handleScrape true 3 ['h', 'i']).getD (.plain [])) (by decide)⟩

/-- C6: the client polls on a fixed 2000 ms interval, and the polls
actually made are exactly the outcome sequence cut immediately after the
first outcome that is an error or a completed/failed status — so after
such an outcome the task is never polled again, and while none occurs
polling continues through every tick. -/
theorem claim6_polling_stops (os : List PollOutcome) :
    POLL_INTERVAL_MS = 2000 ∧
    (∀ k, pollTimeMs (k + 1) - pollTimeMs k = POLL_INTERVAL_MS) ∧
    pollsMade os
      = os.take ((os.takeWhile (fun o => !stopsPolling o)).length + 1) ∧
    ((∀ o ∈ os, stopsPolling o = false) → pollsMade os = os) := by
  refine ⟨rfl, ?_, pollsMade_eq_take os, pollsMade_all os⟩
  intro k
  rw [pollTimeMs, pollTimeMs, POLL_INTERVAL_MS]
  omega

theorem claim6_witness :
    pollsMade [.ok ⟨['a'], .running⟩, .ok ⟨['a'], .completed⟩, .err]
        = [.ok ⟨['a'], .running⟩, .ok ⟨['a'], .completed⟩] ∧
    pollsMade [.ok ⟨['a'], .running⟩] = [.ok ⟨['a'], .running⟩] := by
  constructor
  · rw [(claim6_polling_stops
      [.ok ⟨['a'], .running⟩, .ok ⟨['a'], .completed⟩, .err]).2.2.1]
    decide
  · exact (claim6_polling_stops [.ok ⟨['a'], .running⟩]).2.2.2 (by decide)

/-- C7: every product-mode request body has exactly the fields urls,
max_pages and auto_detect, with auto_detect always false regardless of
input, and every plain-mode request body carries only the urls field. -/
theorem claim7_request_body_fields (productMode : Bool) (maxPages : Int)
    (input : Str) (body : RequestBody) :
    (productMode = true →
      handleScrape productMode maxPages input = some body →
      body = .product (nonBlankLines input) maxPages false ∧
      body.fields = ["urls", "max_pages", "auto_detect"]) ∧
    (productMode = false →
      handleScrape productMode maxPages input = some body →
      body = .plain (nonBlankLines input) ∧
      body.fields = ["urls"]) := by
  constructor
  · intro hm hb
    subst hm
    rw [handleScrape] at hb
    by_cases h : (jsTrim input).isEmpty
    · rw [if_pos h] at hb; exact absurd hb (by simp)
    · rw [if_neg h] at hb
      simp at hb
      subst hb
      exact ⟨rfl, rfl⟩
  · intro hm hb
    subst hm
    rw [handleScrape] at hb
    by_cases h : (jsTrim input).isEmpty
    · rw [if_pos h] at hb; exact absurd hb (by simp)
    · rw [if_neg h] at hb
      simp at hb
      subst hb
      exact ⟨rfl, rfl⟩

theorem claim7_witness :
    RequestBody.product (nonBlankLines ['h', 'i']) 3 false
        = .product (nonBlankLines ['h', 'i']) 3 false ∧
    (RequestBody.product (nonBlankLines ['h', 'i']) 3 false).fields
        = ["urls", "max_pages", "auto_detect"] :=
  (claim7_request_body_fields true 3 ['h', 'i']
      (.product (nonBlankLines ['h', 'i']) 3 false)).1 rfl (by decide)

/-- C8 counterexample: a record whose price field holds the number 0 is
not emitted verbatim — its cell in the built CSV is the empty string,
while the verbatim form of the number 0 is the digit 0 — so the claim
that every non-quoted cell is emitted verbatim fails at this record. -/
theorem claim8_counterexample :
    csvCell (.vnum 0) = [] ∧
    displayStr (.vnum 0) = ['0'] ∧
    buildCsv [[(['p'], .vnum 0)]] = some (['p'] ++ ['\n']) ∧
    ([] : Str) ≠ ['0'] := by decide

/-- C8 (amended): for a non-empty result list the built CSV is the
newline-join of a header line — the comma-joined keys of the first
record — followed by exactly one row per record in result order; a string
cell containing a comma or double quote is quote-wrapped with internal
quotes doubled, any other string cell is emitted verbatim, every other
truthy cell is emitted through its display string, every falsy cell
(null, undefined, false, 0, empty string) as the empty string; and for an
empty result list no CSV is built. -/
theorem claim8_csv_structure (r0 : RecordObj) (rest : List RecordObj)
    (s : Str) (v : JSValue) :
    buildCsv [] = none ∧
    buildCsv (r0 :: rest)
      = some (List.intercalate ['\n'] (csvRowStrings (r0 :: rest))) ∧
    (csvRowStrings (r0 :: rest)).length = (r0 :: rest).length + 1 ∧
    (csvRowStrings (r0 :: rest)).head?
      = some (List.intercalate [','] (r0.map Prod.fst)) ∧
    (csvRowStrings (r0 :: rest)).tail
      = (r0 :: rest).map (csvRow (r0.map Prod.fst)) ∧
    (s.contains ',' = true ∨ s.contains '"' = true →
      csvCell (.vstr s) = quoteWrap s) ∧
    (s.contains ',' = false → s.contains '"' = false →
      csvCell (.vstr s) = s) ∧
    (truthy v = true → (∀ t : Str, v ≠ .vstr t) →
      csvCell v = displayStr v) ∧
    (truthy v = false → csvCell v = []) := by
  refine ⟨rfl, rfl, by simp [csvRowStrings], rfl, by simp [csvRowStrings],
    fun h => csvCell_quoted h, fun h1 h2 => csvCell_plain h1 h2,
    fun h hs => csvCell_truthy_nonstr h hs, fun h => csvCell_falsy h⟩

theorem claim8_witness :
    csvCell (.vstr ['a', ',', 'b']) = quoteWrap ['a', ',', 'b'] ∧
    csvCell (.vstr ['a', 'b']) = ['a', 'b'] ∧
    csvCell (.vbool false) = [] ∧
    (csvRowStrings [[(['p'], .vnum 0)]]).length = 2 :=
  ⟨(claim8_csv_structure [] [] ['a', ',', 'b'] .vnull).2.2.2.2.2.1
      (by decide),
    (claim8_csv_structure [] [] ['a', 'b'] .vnull).2.2.2.2.2.2.1
      (by decide) (by decide),
    (claim8_csv_structure [] [] [] (.vbool false)).2.2.2.2.2.2.2.2
      (by decide),
    ((claim8_csv_structure [(['p'], .vnum 0)] [] [] .vnull).2.2.1).trans
      (by decide)⟩

/-- C9: in the built CSV every falsy field value — null, undefined,
false, the number 0 and the empty string — is emitted as an empty cell,
so rows whose cells agree after this coercion are identical: a null price
and a genuine 0 price export indistinguishably. -/
theorem claim9_falsy_cells_empty (hs : List Str) (r1 r2 : RecordObj) :
    csvCell .vnull = [] ∧ csvCell .vundefined = [] ∧
    csvCell (.vbool false) = [] ∧ csvCell (.vnum 0) = [] ∧
    csvCell (.vstr []) = [] ∧
    ((∀ k ∈ hs, csvCell (getField r1 k) = csvCell (getField r2 k)) →
      csvRow hs r1 = csvRow hs r2) := by
  refine ⟨by decide, by decide, by decide, by decide, by decide, ?_⟩
  intro h
  rw [csvRow, csvRow]
  congr 1
  exact List.map_congr_left h

theorem claim9_witness :
    csvRow [['t'], ['p']] [(['t'], .vstr ['x']), (['p'], .vnum 0)]
      = csvRow [['t'], ['p']] [(['t'], .vstr ['x']), (['p'], .vnull)] :=
  (claim9_falsy_cells_empty [['t'], ['p']]
      [(['t'], .vstr ['x']), (['p'], .vnum 0)]
      [(['t'], .vstr ['x']), (['p'], .vnull)]).2.2.2.2.2 (by decide)

/-- C10: each poll update keeps at most one task-list entry per task id
when that held before — a present id is replaced in place at its first
position, preserving length, and an absent id is prepended. -/
theorem claim10_task_list_unique (taskId : Str) (task : Task)
    (prev : List Task) (hid : task.id = taskId) :
    ((prev.map Task.id).Nodup →
      ((updateTasks taskId task prev).map Task.id).Nodup) ∧
    (∀ i, findIndexById taskId prev = some i →
      updateTasks taskId task prev = prev.set i task ∧
      (updateTasks taskId task prev).length = prev.length) ∧
    (findIndexById taskId prev = none →
      updateTasks taskId task prev = task :: prev) := by
  refine ⟨fun h => updateTasks_nodup hid h, ?_, ?_⟩
  · intro i h
    rw [updateTasks, h]
    exact ⟨rfl, List.length_set prev i task⟩
  · intro h
    rw [updateTasks, h]

theorem claim10_witness :
    ((updateTasks ['a'] ⟨['a'], .completed⟩
        [⟨['a'], .running⟩, ⟨['b'], .running⟩]).map Task.id).Nodup ∧
    updateTasks ['a'] ⟨['a'], .completed⟩
        [⟨['a'], .running⟩, ⟨['b'], .running⟩]
      = [⟨['a'], .running⟩, ⟨['b'], .running⟩].set 0 ⟨['a'], .completed⟩ ∧
    updateTasks ['c'] ⟨['c'], .completed⟩ [⟨['a'], .running⟩]
      = ⟨['c'], .completed⟩ :: [⟨['a'], .running⟩] :=
  ⟨(claim10_task_list_unique ['a'] ⟨['a'], .completed⟩
        [⟨['a'], .running⟩, ⟨['b'], .running⟩] rfl).1 (by decide),
    ((claim10_task_list_unique ['a'] ⟨['a'], .completed⟩
        [⟨['a'], .running⟩, ⟨['b'], .running⟩] rfl).2.1 0 (by decide)).1,
    (claim10_task_list_unique ['c'] ⟨['c'], .completed⟩
        [⟨['a'], .running⟩] rfl).2.2 (by decide)⟩

end Scraper
